import Mathlib

/-!
Shallow embedding of the competitive-evaluation and capital-allocation core of
the polymarket-whale-trader repository: the paper-trading ledger
(`paper-trader.js`), the champion/challenger promotion state machine
(`arena.js`), and the ensemble allocator plus risk manager (`ensemble.js`).
JS numbers are embedded as rationals, JS objects used as string-keyed maps as
association lists with the same update-in-place / append-at-end semantics, and
JS `null` / missing values as `Option`.  All definitions live in namespace
`WT`.
-/

namespace WT

/-- Strategy and market identifiers: JS strings, embedded as character lists. -/
abbrev StrId := List Char

/-- JS `s.split(sep)` for a single-character separator: accumulator-based walk.
`acc` holds the current chunk reversed. -/
def splitCharAux (sep : Char) : List Char → List Char → List (List Char)
  | [], acc => [acc.reverse]
  | c :: cs, acc =>
      if c = sep then acc.reverse :: splitCharAux sep cs []
      else splitCharAux sep cs (c :: acc)

/-- JS `s.split(sep)` on a whole string. -/
def splitChar (sep : Char) (s : List Char) : List (List Char) :=
  splitCharAux sep s []

/-- The namespacing prefix stripped by the ledger, `"creative:"`. -/
def creativePrefix : StrId := "creative:".toList

/-- Strategy-key normalization used by `getPerformanceWindow` and
`closeMarket` in `paper-trader.js`:
`trade.strategy.startsWith("creative:") ? trade.strategy.split(":")[1] : trade.strategy`. -/
def normalizeStrat (s : StrId) : StrId :=
  if creativePrefix.isPrefixOf s then (splitChar ':' s).getD 1 [] else s

/-- Trade action, `"BUY_UP"` or `"BUY_DOWN"`. -/
inductive TradeAction where
  | buyUp
  | buyDown
deriving DecidableEq, Repr

/-- Trade status, `"open"` or `"closed"`. -/
inductive TradeStatus where
  | opened
  | closed
deriving DecidableEq, Repr

/-- Reason a trade was closed (only the take-profit sweep sets one). -/
inductive TPReason where
  | takeProfit
deriving DecidableEq, Repr

/-- One ledger entry of `paper-trader.js` (the fields the core reads). -/
structure Trade where
  timestamp : ℚ
  strategy : StrId
  isReal : Bool
  market : StrId
  action : TradeAction
  entryPrice : ℚ
  size : ℚ
  status : TradeStatus
  exitPrice : Option ℚ
  pnl : Option ℚ
  closedAt : Option ℚ
  closeReason : Option TPReason
deriving DecidableEq, Repr

/-- A `{ up, down }` price pair as passed to `calculateMtmPnL`. -/
structure UpDown where
  up : ℚ
  down : ℚ
deriving DecidableEq, Repr

/-- `PaperTrader.calculateMtmPnL(trade, currentPrices)`. For a closed trade
returns `trade.pnl || 0`; for an open trade takes the side price
`currentPrices?.[side] || trade.entryPrice` (a missing price map, and likewise
a zero side price, falls back to the entry price) and returns
`size / entryPrice * currentPrice - size`. -/
def calculateMtmPnL (t : Trade) (currentPrices : Option UpDown) : ℚ :=
  if t.status = TradeStatus.closed then
    (t.pnl).getD 0
  else
    let raw := match currentPrices with
      | none => t.entryPrice
      | some pr =>
          let p := if t.action = TradeAction.buyUp then pr.up else pr.down
          if p = 0 then t.entryPrice else p
    t.size / t.entryPrice * raw - t.size

/-- Per-strategy aggregate computed by `getPerformanceWindow`. -/
structure PerfStats where
  trades : ℕ
  wins : ℕ
  pnl : ℚ
  openPnL : ℚ
  closedPnL : ℚ
deriving DecidableEq, Repr

/-- The zero record installed when a strategy key is first seen. -/
def perfInit : PerfStats := ⟨0, 0, 0, 0, 0⟩

/-- JS `map[k] = f(map[k] ?? init)` on a string-keyed object embedded as an
association list: update in place if present, append at the end otherwise. -/
def updAssoc (k : StrId) (f : PerfStats → PerfStats) :
    List (StrId × PerfStats) → List (StrId × PerfStats)
  | [] => [(k, f perfInit)]
  | p :: rest => if p.1 = k then (k, f p.2) :: rest else p :: updAssoc k f rest

/-- One loop body of `getPerformanceWindow`: bump the (normalized) strategy
record with the trade's closed PnL or its mark-to-market estimate. -/
def perfAddTrade (currentPrices : Option UpDown)
    (m : List (StrId × PerfStats)) (t : Trade) : List (StrId × PerfStats) :=
  updAssoc (normalizeStrat t.strategy)
    (fun s =>
      if t.status = TradeStatus.closed then
        { s with
          trades := s.trades + 1
          closedPnL := s.closedPnL + (t.pnl).getD 0
          pnl := s.pnl + (t.pnl).getD 0
          wins := s.wins + (if 0 < (t.pnl).getD 0 then 1 else 0) }
      else
        let mtm := calculateMtmPnL t currentPrices
        { s with
          trades := s.trades + 1
          openPnL := s.openPnL + mtm
          pnl := s.pnl + mtm }) m

/-- Window-membership test of `getPerformanceWindow`:
`t.timestamp >= Date.now() - hours * 60 * 60 * 1000`. -/
def inWindow (now hours : ℚ) (t : Trade) : Bool :=
  decide (now - hours * 3600000 ≤ t.timestamp)

/-- `PaperTrader.getPerformanceWindow(hours, currentPrices)` over an explicit
ledger and clock: filter trades to the trailing window, normalize strategy
keys, and accumulate per-strategy stats. -/
def getPerformanceWindow (trades : List Trade) (now hours : ℚ)
    (currentPrices : Option UpDown) : List (StrId × PerfStats) :=
  (trades.filter (inWindow now hours)).foldl (perfAddTrade currentPrices) []

/-! ### Take-profit sweep (`PaperTrader.checkTakeProfits`) -/

/-- A `{ upPrice, downPrice }` entry of the market-price map handed to the
take-profit sweep; either side may be missing on the market data. -/
structure MarketPrices where
  upPrice : Option ℚ
  downPrice : Option ℚ
deriving DecidableEq, Repr

/-- The price the sweep reads for a trade:
`trade.action === "BUY_UP" ? prices.upPrice : prices.downPrice`. -/
def tpSidePrice (pp : MarketPrices) (a : TradeAction) : Option ℚ :=
  if a = TradeAction.buyUp then pp.upPrice else pp.downPrice

/-- Association-list lookup standing in for JS `map[key]`. -/
def alookup {β : Type} (k : StrId) : List (StrId × β) → Option β
  | [] => none
  | p :: rest => if p.1 = k then some p.2 else alookup k rest

/-- `config.TAKE_PROFIT_PCT || 0.30` — the configured value is `0.30`. -/
def takeProfitPct : ℚ := 3 / 10

/-- Whether `checkTakeProfits` fires on one trade: the trade is open, its
market is in the price map, the side price is present and truthy (nonzero),
and `(currentPrice - entryPrice) / entryPrice >= takeProfitPct`. -/
def tpFires (mp : List (StrId × MarketPrices)) (t : Trade) : Bool :=
  decide (t.status = TradeStatus.opened) &&
    match alookup t.market mp with
    | none => false
    | some pr =>
        match tpSidePrice pr t.action with
        | none => false
        | some p =>
            !decide (p = 0) && decide (takeProfitPct ≤ (p - t.entryPrice) / t.entryPrice)

/-- The mutation `checkTakeProfits` applies to a trade it closes: status
closed, exit at the current price, `pnl = size/entryPrice * price - size`,
close reason `TAKE_PROFIT`. -/
def tpClose (now : ℚ) (p : ℚ) (t : Trade) : Trade :=
  { t with
    status := TradeStatus.closed
    exitPrice := some p
    pnl := some (t.size / t.entryPrice * p - t.size)
    closedAt := some now
    closeReason := some TPReason.takeProfit }

/-- Effect of the sweep on one ledger entry. -/
def tpStep (mp : List (StrId × MarketPrices)) (now : ℚ) (t : Trade) : Trade :=
  if tpFires mp t then
    match alookup t.market mp with
    | none => t
    | some pr =>
        match tpSidePrice pr t.action with
        | none => t
        | some p => tpClose now p t
  else t

/-- `PaperTrader.checkTakeProfits(marketPrices)` as a transform of the whole
ledger: each open trade satisfying the fire condition is closed in place,
every other entry is untouched. -/
def checkTakeProfits (mp : List (StrId × MarketPrices)) (now : ℚ)
    (trades : List Trade) : List Trade :=
  trades.map (tpStep mp now)

/-! ### Arena promotion state machine (`arena.js`) -/

/-- One `promotionHistory` record. -/
structure PromotionEvent where
  timestamp : ℚ
  oldChampion : StrId
  newChampion : StrId
deriving DecidableEq, Repr

/-- The persisted `arena-state.json` singleton. -/
structure ArenaState where
  champion : StrId
  challengerWins : List (StrId × ℕ)
  promotionHistory : List PromotionEvent
  lastUpdate : ℚ
deriving DecidableEq, Repr

/-- The cold-start state produced by `loadState` when no snapshot exists. -/
def initArenaState : ArenaState :=
  { champion := "baseline".toList
    challengerWins := []
    promotionHistory := []
    lastUpdate := 0 }

/-- `WINS_FOR_PROMOTION = 3`. -/
def winsForPromotion : ℕ := 3

/-- `MIN_EDGE_FOR_WIN = 1.0`. -/
def minEdgeForWin : ℚ := 1

/-- A challenger's consecutive-win counter (`challengerWins[name] || 0`). -/
def winsOf (st : ArenaState) (s : StrId) : ℕ :=
  (alookup s st.challengerWins).getD 0

/-- JS `map[k] = v`: overwrite if present, append otherwise. -/
def setWins (k : StrId) (v : ℕ) : List (StrId × ℕ) → List (StrId × ℕ)
  | [] => [(k, v)]
  | p :: rest => if p.1 = k then (k, v) :: rest else p :: setWins k v rest

/-- `performances[champion]?.pnl || 0` specialised to a pnl-per-strategy view
(falsy `0` maps to `0` either way, and a missing entry yields `0`). -/
def championPnlOf (st : ArenaState) (perfs : List (StrId × ℚ)) : ℚ :=
  (alookup st.champion perfs).getD 0

/-- `Object.entries(performances).sort((a, b) => b[1].pnl - a[1].pnl)`: stable
descending sort by window PnL. -/
def sortPerfs (perfs : List (StrId × ℚ)) : List (StrId × ℚ) :=
  perfs.mergeSort (fun a b => decide (b.2 ≤ a.2))

/-- The best-challenger scan of `compareAndPromote`: walk the sorted entries
keeping `(bestChallenger, bestChallengerPnL)`, starting from
`(null, championPnL)`; a row is taken iff it is not the champion, beats the
running best strictly, is strictly profitable, and has at least the `$1`
minimum edge over the champion. -/
def winnerFold (champion : StrId) (championPnl : ℚ) (l : List (StrId × ℚ)) :
    Option StrId × ℚ :=
  l.foldl
    (fun acc p =>
      if p.1 ≠ champion ∧ acc.2 < p.2 ∧ 0 < p.2 ∧ minEdgeForWin ≤ p.2 - championPnl
      then (some p.1, p.2) else acc)
    (none, championPnl)

/-- The unique cycle winner, if any. -/
def winnerOf (st : ArenaState) (perfs : List (StrId × ℚ)) : Option StrId :=
  (winnerFold st.champion (championPnlOf st perfs) (sortPerfs perfs)).1

/-- `StrategyArena.promote(newChampion)`: append a history record, crown the
winner, clear every consecutive-win counter. -/
def promote (w : StrId) (now : ℚ) (st : ArenaState) : ArenaState :=
  { champion := w
    challengerWins := []
    promotionHistory := st.promotionHistory ++ [⟨now, st.champion, w⟩]
    lastUpdate := now }

/-- `StrategyArena.compareAndPromote` as a state transition on the arena
state, fed with the 48h performance view (strategy, window pnl).  A winning
challenger's counter is bumped (`(x || 0) + 1`), every other counter is reset
to `0`, and the winner is promoted once the bumped counter reaches
`WINS_FOR_PROMOTION`; with no winner, `challengerWins` is reset to `{}`. -/
def compareAndPromote (perfs : List (StrId × ℚ)) (now : ℚ) (st : ArenaState) :
    ArenaState :=
  match winnerOf st perfs with
  | some w =>
      let newWins := (alookup w st.challengerWins).getD 0 + 1
      let cw := (setWins w newWins st.challengerWins).map
        (fun p => if p.1 = w then p else (p.1, 0))
      let st1 := { st with challengerWins := cw, lastUpdate := now }
      if winsForPromotion ≤ newWins then promote w now st1 else st1
  | none => { st with challengerWins := [], lastUpdate := now }

/-- Arena states reachable from the cold-start state by evaluation cycles. -/
inductive ReachableArena : ArenaState → Prop where
  | init : ReachableArena initArenaState
  | step (perfs : List (StrId × ℚ)) (now : ℚ) (st : ArenaState) :
      ReachableArena st → ReachableArena (compareAndPromote perfs now st)

/-! ### Risk manager (`ensemble.js`, `RiskManager`) -/

/-- `config.RISK` as consumed by `RiskManager`.  The `config.js` under `src/`
does not carry a `RISK` block; the fields are those the risk manager reads and
the reference values (20% exposure cap, 10 min cooldown, stacking ban, 5%
sizing) come from its own header comment, so the checks are stated for an
arbitrary configuration. -/
structure RiskConfig where
  maxExposurePerMarket : ℚ
  cooldownMinutes : ℚ
  noStacking : Bool
  positionSizePct : ℚ
  minTradeSize : ℚ
  maxTradeSize : ℚ
deriving DecidableEq, Repr

/-- `PaperTrader.getOpenTrades()`. -/
def openTrades (trades : List Trade) : List Trade :=
  trades.filter (fun t => decide (t.status = TradeStatus.opened))

/-- `RiskManager.getPortfolioValue()`: a hard-coded `$500` base balance plus
the summed size of all open trades of the injected paper ledger. -/
def getPortfolioValue (trades : List Trade) : ℚ :=
  500 + ((openTrades trades).map (fun t => t.size)).sum

/-- `RiskManager.getMarketExposure(marketSlug)`. -/
def getMarketExposure (trades : List Trade) (market : StrId) : ℚ :=
  (((openTrades trades).filter (fun t => decide (t.market = market))).map
    (fun t => t.size)).sum

/-- `RiskManager.getLastTradeTime(strategyName)`: most recent timestamp among
all of the strategy's trades, `null` when it has none. -/
def getLastTradeTime (trades : List Trade) (s : StrId) : Option ℚ :=
  match (trades.filter (fun t => decide (t.strategy = s))).mergeSort
      (fun a b => decide (b.timestamp ≤ a.timestamp)) with
  | [] => none
  | t :: _ => some t.timestamp

/-- `RiskManager.hasOpenPosition(strategy, market, action)`. -/
def hasOpenPosition (trades : List Trade) (s market : StrId)
    (a : TradeAction) : Bool :=
  (openTrades trades).any
    (fun t => decide (t.strategy = s ∧ t.market = market ∧ t.action = a))

/-- JS `Math.round(x * 100) / 100` (round half up). -/
def round2 (x : ℚ) : ℚ := (⌊x * 100 + 1 / 2⌋ : ℚ) / 100

/-- `RiskManager.calculatePositionSize(confidence)`:
`portfolio * PSZ * (0.5 + 0.5 * confidence)` clamped to the min/max trade
size, rounded to cents. -/
def calculatePositionSize (cfg : RiskConfig) (trades : List Trade)
    (confidence : ℚ) : ℚ :=
  round2 (min cfg.maxTradeSize
    (max cfg.minTradeSize
      (getPortfolioValue trades * cfg.positionSizePct *
        (1 / 2 + confidence * (1 / 2)))))

/-- Machine-readable rule tag of a risk rejection. -/
inductive RiskRule where
  | maxExposure
  | cooldown
  | noStacking
deriving DecidableEq, Repr

/-- Outcome of `RiskManager.validate`: a single-rule rejection, or an accepted
size together with the `adjusted` flag of the post-size shrink. -/
inductive RiskResult where
  | rejected (rule : RiskRule)
  | accepted (size : ℚ) (adjusted : Bool)
deriving DecidableEq, Repr

/-- The cooldown test of `validate`: the strategy has a last trade time, JS
considers it truthy (nonzero), and `now - lastTradeTime` is under
`COOLDOWN_MINUTES * 60 * 1000`. -/
def cooldownActive (cfg : RiskConfig) (trades : List Trade) (now : ℚ)
    (s : StrId) : Bool :=
  match getLastTradeTime trades s with
  | none => false
  | some t0 => !decide (t0 = 0) && decide (now - t0 < cfg.cooldownMinutes * 60000)

/-- `RiskManager.validate` with the portfolio value passed as an explicit
parameter — the architecture §4.2 of the spec describes (an external
`portfolioValue` input).  Checks run in order: exposure, cooldown,
anti-stacking, sizing, post-size exposure re-check. -/
def validateExt (cfg : RiskConfig) (portfolio : ℚ) (trades : List Trade)
    (now : ℚ) (s market : StrId) (a : TradeAction) (confidence : ℚ) :
    RiskResult :=
  let currentExposure := getMarketExposure trades market
  if cfg.maxExposurePerMarket ≤ currentExposure / portfolio then
    RiskResult.rejected RiskRule.maxExposure
  else if cooldownActive cfg trades now s then
    RiskResult.rejected RiskRule.cooldown
  else if cfg.noStacking && hasOpenPosition trades s market a then
    RiskResult.rejected RiskRule.noStacking
  else
    let size := round2 (min cfg.maxTradeSize
      (max cfg.minTradeSize
        (portfolio * cfg.positionSizePct * (1 / 2 + confidence * (1 / 2)))))
    if cfg.maxExposurePerMarket < (currentExposure + size) / portfolio then
      let maxAllowed := cfg.maxExposurePerMarket * portfolio - currentExposure
      if maxAllowed < cfg.minTradeSize then
        RiskResult.rejected RiskRule.maxExposure
      else
        RiskResult.accepted (max cfg.minTradeSize maxAllowed) true
    else
      RiskResult.accepted size false

/-- `RiskManager.validate` as in the source: it derives the portfolio value
itself via `getPortfolioValue` from the injected paper ledger, taking no
external portfolio input. -/
def validate (cfg : RiskConfig) (trades : List Trade) (now : ℚ)
    (s market : StrId) (a : TradeAction) (confidence : ℚ) : RiskResult :=
  let portfolio := getPortfolioValue trades
  let currentExposure := getMarketExposure trades market
  if cfg.maxExposurePerMarket ≤ currentExposure / portfolio then
    RiskResult.rejected RiskRule.maxExposure
  else if cooldownActive cfg trades now s then
    RiskResult.rejected RiskRule.cooldown
  else if cfg.noStacking && hasOpenPosition trades s market a then
    RiskResult.rejected RiskRule.noStacking
  else
    let size := calculatePositionSize cfg trades confidence
    if cfg.maxExposurePerMarket < (currentExposure + size) / portfolio then
      let maxAllowed := cfg.maxExposurePerMarket * portfolio - currentExposure
      if maxAllowed < cfg.minTradeSize then
        RiskResult.rejected RiskRule.maxExposure
      else
        RiskResult.accepted (max cfg.minTradeSize maxAllowed) true
    else
      RiskResult.accepted size false

/-- The exposure-violation condition of `validate`'s first check. -/
def exposureViolated (cfg : RiskConfig) (trades : List Trade)
    (market : StrId) : Prop :=
  cfg.maxExposurePerMarket ≤
    getMarketExposure trades market / getPortfolioValue trades

/-! ### Ensemble allocator (`ensemble.js`, `EnsembleAllocator`) -/

/-- Per-strategy statistics as prepared by `getStrategyStats` and consumed by
`calculateAllocations` (closed-trade count, wins, total PnL, Sharpe-like
ratio). -/
structure StratStats where
  closedTrades : ℕ
  wins : ℕ
  totalPnl : ℚ
  sharpe : ℚ
deriving DecidableEq, Repr

/-- `winRate = closedTrades > 0 ? wins / closedTrades : 0`. -/
def winRate (s : StratStats) : ℚ :=
  if 0 < s.closedTrades then (s.wins : ℚ) / (s.closedTrades : ℚ) else 0

/-- `MIN_TRADES = 3`, `MIN_WIN_RATE = 0.3`, `MIN_PNL = -10`. -/
def minTrades : ℕ := 3
def minWinRate : ℚ := 3 / 10
def minPnlFloor : ℚ := -10

/-- The eligibility filter of `calculateAllocations`: the named disabled
strategies are always skipped, the rest must meet the trade-count, win-rate
and PnL floors. -/
def eligibleEntry (p : StrId × StratStats) : Bool :=
  !decide (p.1 = "contrarian".toList) &&
  !decide (p.1 = "mean_reversion".toList) &&
  decide (minTrades ≤ p.2.closedTrades) &&
  decide (minWinRate ≤ winRate p.2) &&
  decide (minPnlFloor ≤ p.2.totalPnl)

def eligibleStats (stats : List (StrId × StratStats)) :
    List (StrId × StratStats) :=
  stats.filter eligibleEntry

/-- Raw weight: `sharpe` if positive, else a `0.1` participation credit for
strategies with positive PnL, else `0`. -/
def baseWeight (s : StratStats) : ℚ :=
  if 0 < s.sharpe then s.sharpe else if 0 < s.totalPnl then 1 / 10 else 0

def rawWeights (stats : List (StrId × StratStats)) : List (StrId × ℚ) :=
  (eligibleStats stats).map (fun p => (p.1, baseWeight p.2))

/-- Sum of an association list's weights. -/
def wsum (m : List (StrId × ℚ)) : ℚ := (m.map (fun p => p.2)).sum

def totalBaseWeight (stats : List (StrId × StratStats)) : ℚ :=
  wsum (rawWeights stats)

/-- Normalization `weights[name] /= totalWeight`, applied only when
`totalWeight > 0`. -/
def initWeights (stats : List (StrId × StratStats)) : List (StrId × ℚ) :=
  if 0 < totalBaseWeight stats then
    (rawWeights stats).map (fun p => (p.1, p.2 / totalBaseWeight stats))
  else rawWeights stats

/-- `MIN_ALLOC = 0.1`, `MAX_ALLOC = 0.5`, `MAX_ITERATIONS = 10`. -/
def minAlloc : ℚ := 1 / 10
def maxAlloc : ℚ := 1 / 2
def maxIterations : ℕ := 10

/-- One weight's clamp: a nonzero weight under the floor is raised to it, a
weight over the cap is lowered to it. -/
def clampOne (w : ℚ) : ℚ :=
  if 0 < w ∧ w < minAlloc then minAlloc
  else if maxAlloc < w then maxAlloc else w

/-- Whether the clamp fires on a weight (`needsRebalance` contribution). -/
def clampFires (w : ℚ) : Bool :=
  decide (0 < w ∧ w < minAlloc) || decide (maxAlloc < w)

/-- One pass of the bound-enforcement loop body: clamp every entry, recording
whether any clamp fired. -/
def clampPass (m : List (StrId × ℚ)) : List (StrId × ℚ) × Bool :=
  (m.map (fun p => (p.1, clampOne p.2)), m.any (fun p => clampFires p.2))

/-- The renormalization step run after the clamps of one pass:
`if (total > 0 && |total - 1| > 0.01) every weight /= total`. -/
def renormStep (m : List (StrId × ℚ)) : List (StrId × ℚ) :=
  let total := wsum m
  if 0 < total ∧ 1 / 100 < |total - 1| then
    m.map (fun p => (p.1, p.2 / total))
  else m

/-- The `while (iterations < MAX_ITERATIONS)` loop: run a clamp pass plus
renormalization; stop early when no clamp fired (`break`), returning `true`
in that case, or run out of iterations, returning `false`. -/
def rebalance : ℕ → List (StrId × ℚ) → List (StrId × ℚ) × Bool
  | 0, m => (m, false)
  | Nat.succ n, m =>
      let c := clampPass m
      let m2 := renormStep c.1
      if c.2 then rebalance n m2 else (m2, true)

/-- The fallback allocation `{ momentum_pure: 1.0 }`. -/
def fallbackAlloc : List (StrId × ℚ) := [("momentum_pure".toList, 1)]

/-- `EnsembleAllocator.calculateAllocations()` over an explicit statistics
set: filter to eligible strategies, fall back to `momentum_pure` when none
qualify, weight by Sharpe (or participation credit), normalize, then run the
iterative floor/cap rebalance. -/
def calculateAllocations (stats : List (StrId × StratStats)) :
    List (StrId × ℚ) :=
  if eligibleStats stats = [] then fallbackAlloc
  else (rebalance maxIterations (initWeights stats)).1

/-- `EnsembleAllocator.getAllocation(strategyName, baseSize)`. -/
def getAllocation (stats : List (StrId × StratStats)) (s : StrId)
    (baseSize : ℚ) : Bool × ℚ × ℚ :=
  let allocation := (alookup s (calculateAllocations stats)).getD 0
  (decide (0 < allocation), baseSize * allocation, allocation)


/-! ## Helper lemmas -/

theorem splitCharAux_no_sep (sep : Char) :
    ∀ (l acc : List Char), (∀ c ∈ acc, c ≠ sep) →
      ∀ chunk ∈ splitCharAux sep l acc, ∀ c ∈ chunk, c ≠ sep := by
  intro l
  induction l with
  | nil =>
      intro acc hacc chunk hchunk c hc
      simp only [splitCharAux, List.mem_singleton] at hchunk
      subst hchunk
      exact hacc c (List.mem_reverse.mp hc)
  | cons c0 cs ih =>
      intro acc hacc chunk hchunk c hc
      by_cases h : c0 = sep
      · rw [splitCharAux, if_pos h] at hchunk
        rcases List.mem_cons.mp hchunk with h1 | h1
        · subst h1; exact hacc c (List.mem_reverse.mp hc)
        · exact ih [] (by simp) chunk h1 c hc
      · rw [splitCharAux, if_neg h] at hchunk
        refine ih (c0 :: acc) ?_ chunk hchunk c hc
        intro x hx
        rcases List.mem_cons.mp hx with h1 | h1
        · subst h1; exact h
        · exact hacc x h1

theorem normalizeStrat_no_sep {s : StrId}
    (hp : creativePrefix.isPrefixOf s = true) :
    ∀ c ∈ normalizeStrat s, c ≠ ':' := by
  intro c hc
  unfold normalizeStrat at hc
  rw [if_pos hp] at hc
  rcases h2 : (splitChar ':' s).get? 1 with _ | chunk
  · rw [List.getD_eq_getD_get?, h2] at hc
    simp at hc
  · rw [List.getD_eq_getD_get?, h2] at hc
    have hmem : chunk ∈ splitChar ':' s := List.get?_mem h2
    exact splitCharAux_no_sep ':' s [] (by simp) chunk hmem c hc

theorem normalizeStrat_eq_self {s : StrId} (h : ∀ c ∈ s, c ≠ ':') :
    normalizeStrat s = s := by
  unfold normalizeStrat
  rw [if_neg]
  intro hb
  have hpre : creativePrefix <+: s := List.isPrefixOf_iff_prefix.mp hb
  have : (':' : Char) ∈ s := hpre.subset (by decide)
  exact (h ':' this) rfl

theorem splitCharAux_of_no_sep (sep : Char) :
    ∀ (l acc : List Char), (∀ c ∈ l, c ≠ sep) →
      splitCharAux sep l acc = [acc.reverse ++ l] := by
  intro l
  induction l with
  | nil => intro acc _; simp [splitCharAux]
  | cons c0 cs ih =>
      intro acc h
      have hc0 : c0 ≠ sep := h c0 (List.mem_cons_self _ _)
      rw [splitCharAux, if_neg hc0, ih (c0 :: acc) (fun x hx => h x (List.mem_cons_of_mem _ hx))]
      simp

theorem splitCharAux_through (sep : Char) :
    ∀ (l1 rest acc : List Char), (∀ c ∈ l1, c ≠ sep) →
      splitCharAux sep (l1 ++ sep :: rest) acc =
        (acc.reverse ++ l1) :: splitCharAux sep rest [] := by
  intro l1
  induction l1 with
  | nil => intro rest acc _; simp [splitCharAux]
  | cons c0 cs ih =>
      intro rest acc h
      have hc0 : c0 ≠ sep := h c0 (List.mem_cons_self _ _)
      rw [List.cons_append, splitCharAux, if_neg hc0,
        ih rest (c0 :: acc) (fun x hx => h x (List.mem_cons_of_mem _ hx))]
      simp

theorem normalizeStrat_strip {s : StrId} (h : ':' ∉ s) :
    normalizeStrat (creativePrefix ++ s) = normalizeStrat s := by
  have hcs : ∀ c ∈ s, c ≠ ':' := fun c hc he => h (he ▸ hc)
  have hsplit : splitChar ':' (creativePrefix ++ s) = ["creative".toList, s] := by
    have he : creativePrefix ++ s = "creative".toList ++ ':' :: s := rfl
    rw [splitChar, he, splitCharAux_through ':' _ _ _ (by decide),
      splitCharAux_of_no_sep ':' s [] hcs]
    simp
  have hpre : creativePrefix.isPrefixOf (creativePrefix ++ s) = true :=
    List.isPrefixOf_iff_prefix.mpr (List.prefix_append _ _)
  rw [normalizeStrat_eq_self hcs, normalizeStrat, if_pos hpre, hsplit]
  rfl

/-- C8: strategy-key normalization is idempotent, ids differing only by the
`"creative:"` namespacing prefix normalize to the same canonical key, and the
trades of two such ids aggregate into a single `performanceWindow` entry with
trade counts and PnL summed. -/
theorem normalize_idem_and_aggregate :
    (∀ s : StrId, normalizeStrat (normalizeStrat s) = normalizeStrat s) ∧
    (∀ s : StrId, ':' ∉ s →
      normalizeStrat (creativePrefix ++ s) = normalizeStrat s) ∧
    getPerformanceWindow
      [⟨1000, "creative:contrarian".toList, false, "m1".toList,
          TradeAction.buyUp, 1/2, 10, TradeStatus.closed, some 1, some 3,
          some 1500, none⟩,
        ⟨2000, "contrarian".toList, false, "m2".toList,
          TradeAction.buyDown, 1/2, 10, TradeStatus.closed, some 1, some 4,
          some 2500, none⟩]
      3000 48 none
      = [("contrarian".toList, ⟨2, 2, 7, 0, 7⟩)] := by
  refine ⟨?_, fun s h => normalizeStrat_strip h, ?_⟩
  · intro s
    by_cases hp : creativePrefix.isPrefixOf s = true
    · exact normalizeStrat_eq_self (normalizeStrat_no_sep hp)
    · have h1 : normalizeStrat s = s := by
        unfold normalizeStrat; rw [if_neg hp]
      rw [h1, h1]
  · have e1 : normalizeStrat
        ['c', 'r', 'e', 'a', 't', 'i', 'v', 'e', ':',
          'c', 'o', 'n', 't', 'r', 'a', 'r', 'i', 'a', 'n'] =
        ['c', 'o', 'n', 't', 'r', 'a', 'r', 'i', 'a', 'n'] := by decide
    have e2 : normalizeStrat ['c', 'o', 'n', 't', 'r', 'a', 'r', 'i', 'a', 'n'] =
        ['c', 'o', 'n', 't', 'r', 'a', 'r', 'i', 'a', 'n'] := by decide
    norm_num [getPerformanceWindow, inWindow, perfAddTrade, updAssoc, e1, e2,
      perfInit]

/-- C8 witness: the general clauses applied at `s = "contrarian"`. -/
theorem normalize_idem_and_aggregate_witness :
    normalizeStrat (normalizeStrat "creative:contrarian".toList) =
        normalizeStrat "creative:contrarian".toList ∧
    normalizeStrat (creativePrefix ++ "contrarian".toList) =
        normalizeStrat "contrarian".toList :=
  ⟨normalize_idem_and_aggregate.1 _,
    normalize_idem_and_aggregate.2.1 "contrarian".toList (by decide)⟩


/-! ## Arena theorems -/

theorem winnerFold_aux (champion : StrId) (cPnl : ℚ) :
    ∀ (l : List (StrId × ℚ)) (acc : Option StrId × ℚ),
      cPnl ≤ acc.2 → (acc.1 = none → acc.2 = cPnl) →
      (∀ x, acc.1 = some x → x ≠ champion) →
      (∀ x, (List.foldl (fun a p =>
          if p.1 ≠ champion ∧ a.2 < p.2 ∧ 0 < p.2 ∧ minEdgeForWin ≤ p.2 - cPnl
          then (some p.1, p.2) else a) acc l).1 = some x → x ≠ champion) ∧
      ((List.foldl (fun a p =>
          if p.1 ≠ champion ∧ a.2 < p.2 ∧ 0 < p.2 ∧ minEdgeForWin ≤ p.2 - cPnl
          then (some p.1, p.2) else a) acc l).1 ≠ none ↔
        acc.1 ≠ none ∨ ∃ p ∈ l, p.1 ≠ champion ∧ cPnl < p.2 ∧ 0 < p.2 ∧
          minEdgeForWin ≤ p.2 - cPnl) := by
  intro l
  induction l with
  | nil =>
      intro acc _ _ h3
      refine ⟨by simpa using h3, by simp⟩
  | cons p l ih =>
      intro acc h1 h2 h3
      by_cases hc : p.1 ≠ champion ∧ acc.2 < p.2 ∧ 0 < p.2 ∧
          minEdgeForWin ≤ p.2 - cPnl
      · have hstep : (List.foldl (fun a p =>
            if p.1 ≠ champion ∧ a.2 < p.2 ∧ 0 < p.2 ∧ minEdgeForWin ≤ p.2 - cPnl
            then (some p.1, p.2) else a) acc (p :: l)) =
            (List.foldl (fun a p =>
            if p.1 ≠ champion ∧ a.2 < p.2 ∧ 0 < p.2 ∧ minEdgeForWin ≤ p.2 - cPnl
            then (some p.1, p.2) else a) (some p.1, p.2) l) := by
          rw [List.foldl_cons, if_pos hc]
      -- the accumulator after taking p
        have hcp : cPnl < p.2 := lt_of_le_of_lt h1 hc.2.1
        obtain ⟨A, B⟩ := ih (some p.1, p.2) (le_of_lt hcp) (by intro h; cases h)
          (by intro x hx; cases hx; exact hc.1)
        rw [hstep]
        refine ⟨A, ?_⟩
        rw [B]
        constructor
        · intro _
          exact Or.inr ⟨p, List.mem_cons_self p l, hc.1, hcp, hc.2.2.1, hc.2.2.2⟩
        · intro _
          exact Or.inl (by simp)
      · have hstep : (List.foldl (fun a p =>
            if p.1 ≠ champion ∧ a.2 < p.2 ∧ 0 < p.2 ∧ minEdgeForWin ≤ p.2 - cPnl
            then (some p.1, p.2) else a) acc (p :: l)) =
            (List.foldl (fun a p =>
            if p.1 ≠ champion ∧ a.2 < p.2 ∧ 0 < p.2 ∧ minEdgeForWin ≤ p.2 - cPnl
            then (some p.1, p.2) else a) acc l) := by
          rw [List.foldl_cons, if_neg hc]
        obtain ⟨A, B⟩ := ih acc h1 h2 h3
        rw [hstep]
        refine ⟨A, ?_⟩
        rw [B]
        constructor
        · rintro (h | ⟨q, hq, hcnd⟩)
          · exact Or.inl h
          · exact Or.inr ⟨q, List.mem_cons_of_mem p hq, hcnd⟩
        · rintro (h | ⟨q, hq, hcnd⟩)
          · exact Or.inl h
          · rcases List.mem_cons.mp hq with rfl | hql
            · -- p itself satisfies the championPnl-relative conditions
              by_cases hnone : acc.1 = none
              · exfalso
                apply hc
                exact ⟨hcnd.1, (h2 hnone) ▸ hcnd.2.1, hcnd.2.2⟩
              · exact Or.inl hnone
            · exact Or.inr ⟨q, hql, hcnd⟩

theorem winnerOf_ne_champion {st : ArenaState} {perfs : List (StrId × ℚ)}
    {w : StrId} (h : winnerOf st perfs = some w) : w ≠ st.champion := by
  have := (winnerFold_aux st.champion (championPnlOf st perfs)
    (sortPerfs perfs) (none, championPnlOf st perfs) le_rfl (fun _ => rfl)
    (by intro x hx; cases hx)).1
  exact this w h

/-- C3: a cycle has a winner iff some challenger meets all three
win-candidate conditions — strictly higher window PnL than the champion,
strictly positive PnL, and a margin of at least the `$1` minimum edge;
in particular a tie with the champion, or any sub-edge margin, never wins. -/
theorem win_candidate_iff (st : ArenaState) (perfs : List (StrId × ℚ)) :
    (winnerOf st perfs ≠ none ↔
      ∃ p ∈ perfs, p.1 ≠ st.champion ∧ championPnlOf st perfs < p.2 ∧
        0 < p.2 ∧ minEdgeForWin ≤ p.2 - championPnlOf st perfs) ∧
    ((∀ p ∈ perfs, p.1 = st.champion ∨ p.2 ≤ championPnlOf st perfs ∨
        p.2 ≤ 0 ∨ p.2 - championPnlOf st perfs < minEdgeForWin) →
      winnerOf st perfs = none) := by
  have hB := (winnerFold_aux st.champion (championPnlOf st perfs)
    (sortPerfs perfs) (none, championPnlOf st perfs) le_rfl (fun _ => rfl)
    (by intro x hx; cases hx)).2
  have hiff : winnerOf st perfs ≠ none ↔
      ∃ p ∈ perfs, p.1 ≠ st.champion ∧ championPnlOf st perfs < p.2 ∧
        0 < p.2 ∧ minEdgeForWin ≤ p.2 - championPnlOf st perfs := by
    rw [winnerOf, winnerFold, hB]
    simp only [ne_eq, not_true_eq_false, false_or]
    constructor
    · rintro ⟨p, hp, hc⟩
      exact ⟨p, (List.mem_mergeSort).mp hp, hc⟩
    · rintro ⟨p, hp, hc⟩
      exact ⟨p, (List.mem_mergeSort).mpr hp, hc⟩
  refine ⟨hiff, ?_⟩
  intro hall
  by_contra hne
  obtain ⟨p, hp, hc1, hc2, hc3, hc4⟩ := hiff.mp hne
  rcases hall p hp with h | h | h | h
  · exact hc1 h
  · exact absurd hc2 (not_lt.mpr h)
  · exact absurd hc3 (not_lt.mpr h)
  · exact absurd hc4 (not_le.mpr h)

/-- C3 witness: a lone challenger with zero PnL (a tie with the absent
champion's `0` and no positive profit) yields no winner. -/
theorem win_candidate_iff_witness :
    winnerOf initArenaState [("alpha".toList, 0)] = none :=
  (win_candidate_iff initArenaState [("alpha".toList, 0)]).2
    (by
      intro p hp
      rcases List.mem_singleton.mp hp with rfl
      right; right; left
      norm_num)

theorem alookup_setWins_self (k : StrId) (v : ℕ) :
    ∀ l, alookup k (setWins k v l) = some v := by
  intro l
  induction l with
  | nil => simp [setWins, alookup]
  | cons p rest ih =>
      by_cases h : p.1 = k
      · simp [setWins, h, alookup]
      · simp [setWins, h, alookup, ih]

theorem alookup_reset_self (w : StrId) :
    ∀ l : List (StrId × ℕ),
      alookup w (l.map (fun p => if p.1 = w then p else (p.1, 0))) =
        alookup w l := by
  intro l
  induction l with
  | nil => rfl
  | cons p rest ih =>
      by_cases h : p.1 = w
      · simp [alookup, h, ih]
      · simp [alookup, h, ih]

theorem alookup_reset_other (w s : StrId) (hsw : s ≠ w) :
    ∀ l : List (StrId × ℕ),
      (alookup s (l.map (fun p => if p.1 = w then p else (p.1, 0)))).getD 0
        = 0 := by
  intro l
  induction l with
  | nil => rfl
  | cons p rest ih =>
      by_cases h : p.1 = w
      · have h2 : ¬(p.1 = s) := fun h2 => hsw (h2 ▸ h)
        simp only [List.map_cons, if_pos h, alookup, h2, if_neg h2]
        exact ih
      · by_cases h2 : p.1 = s
        · simp [alookup, h, h2, hsw]
        · simp only [List.map_cons, if_neg h, alookup, if_neg h2]
          exact ih

/-- C1: when a challenger wins the cycle, its consecutive-win counter is
bumped and, exactly when the bumped counter reaches the threshold of 3, the
challenger is promoted — a `promotionHistory` record is appended and every
counter cleared; below the threshold the champion stays, the winner holds the
bumped counter, every other challenger is reset to zero; and a cycle with no
win candidate clears every challenger counter. -/
theorem promotion_threshold (perfs : List (StrId × ℚ)) (now : ℚ)
    (st : ArenaState) :
    (∀ w, winnerOf st perfs = some w →
      (winsForPromotion ≤ winsOf st w + 1 →
        compareAndPromote perfs now st =
          { champion := w
            challengerWins := []
            promotionHistory := st.promotionHistory ++ [⟨now, st.champion, w⟩]
            lastUpdate := now }) ∧
      (winsOf st w + 1 < winsForPromotion →
        (compareAndPromote perfs now st).champion = st.champion ∧
        winsOf (compareAndPromote perfs now st) w = winsOf st w + 1 ∧
        (∀ s, s ≠ w → winsOf (compareAndPromote perfs now st) s = 0) ∧
        (compareAndPromote perfs now st).promotionHistory
          = st.promotionHistory)) ∧
    (winnerOf st perfs = none →
      (compareAndPromote perfs now st).challengerWins = [] ∧
      (compareAndPromote perfs now st).champion = st.champion ∧
      (compareAndPromote perfs now st).promotionHistory
        = st.promotionHistory) := by
  constructor
  · intro w hw
    constructor
    · intro hthr
      simp only [compareAndPromote, hw, winsOf] at hthr ⊢
      rw [if_pos hthr]
      simp [promote]
    · intro hthr
      simp only [compareAndPromote, hw, winsOf] at hthr ⊢
      rw [if_neg (not_le.mpr hthr)]
      refine ⟨rfl, ?_, ?_, rfl⟩
      · rw [alookup_reset_self, alookup_setWins_self]
        rfl
      · intro s hs
        exact alookup_reset_other w s hs _
  · intro hw
    simp [compareAndPromote, hw]

/-- C1 witness: with `championPnl = 0` and a challenger winning by `+5`,
the second win leaves the champion in place with the counter at 2, and the
third consecutive win promotes. -/
theorem promotion_threshold_witness :
    ((compareAndPromote [("momentum_pure".toList, 5)] 7
        ⟨"baseline".toList, [("momentum_pure".toList, 1)], [], 0⟩).champion
      = "baseline".toList ∧
      winsOf (compareAndPromote [("momentum_pure".toList, 5)] 7
        ⟨"baseline".toList, [("momentum_pure".toList, 1)], [], 0⟩)
        "momentum_pure".toList = 2) ∧
    compareAndPromote [("momentum_pure".toList, 5)] 7
        ⟨"baseline".toList, [("momentum_pure".toList, 2)], [], 0⟩ =
      { champion := "momentum_pure".toList
        challengerWins := []
        promotionHistory := [⟨7, "baseline".toList, "momentum_pure".toList⟩]
        lastUpdate := 7 } := by
  have hwin : ∀ n : ℕ, winnerOf
      ⟨"baseline".toList, [("momentum_pure".toList, n)], [], 0⟩
      [("momentum_pure".toList, 5)] = some "momentum_pure".toList := by
    intro n
    have hc : championPnlOf
        ⟨"baseline".toList, [("momentum_pure".toList, n)], [], 0⟩
        [("momentum_pure".toList, (5 : ℚ))] = 0 := rfl
    unfold winnerOf sortPerfs
    rw [hc, List.mergeSort_singleton]
    unfold winnerFold
    simp only [List.foldl_cons, List.foldl_nil]
    split_ifs with h
    · rfl
    · exact absurd ⟨by decide, by norm_num, by norm_num, by norm_num [minEdgeForWin]⟩ h
  constructor
  · have h := ((promotion_threshold [("momentum_pure".toList, 5)] 7
      ⟨"baseline".toList, [("momentum_pure".toList, 1)], [], 0⟩).1
      "momentum_pure".toList (hwin 1)).2 (by norm_num [winsOf, alookup, winsForPromotion])
    exact ⟨h.1, h.2.1⟩
  · have h := ((promotion_threshold [("momentum_pure".toList, 5)] 7
      ⟨"baseline".toList, [("momentum_pure".toList, 2)], [], 0⟩).1
      "momentum_pure".toList (hwin 2)).1 (by norm_num [winsOf, alookup, winsForPromotion])
    simpa using h

/-- C9: every arena state reachable by evaluation cycles has at most one
strategy with a nonzero consecutive-win counter, and the sitting champion
never holds a counter. -/
theorem at_most_one_challenger (st : ArenaState) (h : ReachableArena st) :
    (∀ s1 s2, winsOf st s1 ≠ 0 → winsOf st s2 ≠ 0 → s1 = s2) ∧
    winsOf st st.champion = 0 := by
  induction h with
  | init => exact ⟨fun s1 s2 h1 _ => absurd rfl h1, rfl⟩
  | step perfs now st0 hst ih =>
      clear ih hst
      rcases hw : winnerOf st0 perfs with _ | w
      · simp only [compareAndPromote, hw]
        exact ⟨fun s1 s2 h1 _ => absurd rfl h1, rfl⟩
      · have hwc : w ≠ st0.champion := winnerOf_ne_champion hw
        simp only [compareAndPromote, hw]
        by_cases hp : winsForPromotion ≤ (alookup w st0.challengerWins).getD 0 + 1
        · rw [if_pos hp]
          exact ⟨fun s1 s2 h1 _ => absurd rfl h1, rfl⟩
        · rw [if_neg hp]
          constructor
          · intro s1 s2 h1 h2
            by_cases e1 : s1 = w
            · by_cases e2 : s2 = w
              · rw [e1, e2]
              · exact absurd (alookup_reset_other w s2 e2 _) h2
            · exact absurd (alookup_reset_other w s1 e1 _) h1
          · exact alookup_reset_other w st0.champion (Ne.symm hwc) _

/-- C9 witness: the invariant applied to the cold-start state. -/
theorem at_most_one_challenger_witness :
    (∀ s1 s2, winsOf initArenaState s1 ≠ 0 → winsOf initArenaState s2 ≠ 0 →
      s1 = s2) ∧
    winsOf initArenaState initArenaState.champion = 0 :=
  at_most_one_challenger initArenaState ReachableArena.init


/-! ## Ledger theorems: mark-to-market, performance window, take-profit sweep -/

/-- C4 (amended): for an open trade whose side price is present and nonzero,
`calculateMtmPnL` returns `size/entryPrice * currentPrice - size`; a missing
price map or a zero side price falls back to the entry price, contributing
exactly zero; for a closed trade with recorded pnl `q` it returns `q`
untouched, whatever prices are passed. -/
theorem mtm_formula (t : Trade) (pr : UpDown) (cp : Option UpDown) (q : ℚ) :
    (t.status = TradeStatus.opened →
      (if t.action = TradeAction.buyUp then pr.up else pr.down) ≠ 0 →
      calculateMtmPnL t (some pr) =
        t.size / t.entryPrice *
          (if t.action = TradeAction.buyUp then pr.up else pr.down) - t.size) ∧
    (t.status = TradeStatus.opened → 0 < t.entryPrice →
      calculateMtmPnL t none = 0) ∧
    (t.status = TradeStatus.opened → 0 < t.entryPrice →
      (if t.action = TradeAction.buyUp then pr.up else pr.down) = 0 →
      calculateMtmPnL t (some pr) = 0) ∧
    (t.status = TradeStatus.closed → t.pnl = some q →
      calculateMtmPnL t cp = q) := by
  refine ⟨?_, ?_, ?_, ?_⟩
  · intro hop hne
    simp [calculateMtmPnL, hop, hne]
  · intro hop hent
    have hne0 : t.entryPrice ≠ 0 := ne_of_gt hent
    simp [calculateMtmPnL, hop, div_mul_cancel₀ _ hne0]
  · intro hop hent hp0
    have hne0 : t.entryPrice ≠ 0 := ne_of_gt hent
    simp [calculateMtmPnL, hop, hp0, div_mul_cancel₀ _ hne0]
  · intro hcl hq
    simp [calculateMtmPnL, hcl, hq]

/-- C4 witness: the spec scenario — open `BUY_UP` trade, entry `0.5`, size
`50`, up-price `0.6` marks to exactly `10`; a closed trade with `pnl 25`
returns `25` against arbitrary prices. -/
theorem mtm_formula_witness :
    calculateMtmPnL
        ⟨0, "a".toList, false, "m".toList, TradeAction.buyUp, 1/2, 50,
          TradeStatus.opened, none, none, none, none⟩
        (some ⟨3/5, 2/5⟩) = 10 ∧
    calculateMtmPnL
        ⟨0, "a".toList, false, "m".toList, TradeAction.buyUp, 1/2, 50,
          TradeStatus.closed, some 1, some 25, none, none⟩
        (some ⟨9/10, 1/10⟩) = 25 := by
  constructor
  · have h := (mtm_formula
      ⟨0, "a".toList, false, "m".toList, TradeAction.buyUp, 1/2, 50,
        TradeStatus.opened, none, none, none, none⟩
      ⟨3/5, 2/5⟩ none 0).1 rfl (by norm_num)
    rw [h]; norm_num
  · exact (mtm_formula
      ⟨0, "a".toList, false, "m".toList, TradeAction.buyUp, 1/2, 50,
        TradeStatus.closed, some 1, some 25, none, none⟩
      ⟨9/10, 1/10⟩ (some ⟨9/10, 1/10⟩) 25).2.2.2 rfl rfl

/-- C4 counterexample: with a side price of exactly `0` the code falls back
to the entry price (JS `||` treats `0` as missing) and returns `0`, not the
`shares * 0 - size = -50` the claim's formula dictates. -/
theorem mtm_zero_price_cex :
    calculateMtmPnL
        ⟨0, "a".toList, false, "m".toList, TradeAction.buyUp, 1/2, 50,
          TradeStatus.opened, none, none, none, none⟩
        (some ⟨0, 1⟩) = 0 ∧
    ¬(calculateMtmPnL
        ⟨0, "a".toList, false, "m".toList, TradeAction.buyUp, 1/2, 50,
          TradeStatus.opened, none, none, none, none⟩
        (some ⟨0, 1⟩) = 50 / (1/2) * 0 - 50) := by
  constructor
  · norm_num [calculateMtmPnL]
  · norm_num [calculateMtmPnL]

/-- C7: the performance window keeps exactly the trades with
`timestamp ≥ now - hours` (dropping the out-of-window ones changes nothing);
an in-window open trade with absent prices contributes a zero mark-to-market;
an in-window closed trade contributes its recorded pnl; and on the spec
scenario (closed pnl-10 trade 1h old, closed pnl-100 trade 50h old) the 48h
window reports one trade with pnl 10. -/
theorem perf_window_spec (trades : List Trade) (now hours : ℚ)
    (cp : Option UpDown) :
    getPerformanceWindow trades now hours cp =
      getPerformanceWindow (trades.filter (inWindow now hours)) now hours cp ∧
    (∀ t : Trade, t.status = TradeStatus.opened → 0 < t.entryPrice →
      inWindow now hours t = true →
      getPerformanceWindow [t] now hours none =
        [(normalizeStrat t.strategy, ⟨1, 0, 0, 0, 0⟩)]) ∧
    (∀ (t : Trade) (q : ℚ), t.status = TradeStatus.closed → t.pnl = some q →
      inWindow now hours t = true →
      getPerformanceWindow [t] now hours cp =
        [(normalizeStrat t.strategy, ⟨1, if 0 < q then 1 else 0, q, 0, q⟩)]) ∧
    getPerformanceWindow
      [⟨196400000, ['A'], false, "m".toList, TradeAction.buyUp, 1/2, 20,
          TradeStatus.closed, some 1, some 10, none, none⟩,
        ⟨20000000, ['A'], false, "m".toList, TradeAction.buyUp, 1/2, 200,
          TradeStatus.closed, some 1, some 100, none, none⟩]
      200000000 48 none
      = [(['A'], ⟨1, 1, 10, 0, 10⟩)] := by
  refine ⟨?_, ?_, ?_, ?_⟩
  · rw [getPerformanceWindow, getPerformanceWindow, List.filter_filter]
    congr 1
    apply List.filter_congr
    intro t _
    simp
  · intro t hop hent hinw
    have hne0 : t.entryPrice ≠ 0 := ne_of_gt hent
    simp [getPerformanceWindow, hinw, perfAddTrade, updAssoc, perfInit,
      calculateMtmPnL, hop, div_mul_cancel₀ _ hne0]
  · intro t q hcl hq hinw
    simp [getPerformanceWindow, hinw, perfAddTrade, updAssoc, perfInit,
      hcl, hq]
  · have e1 : normalizeStrat ['A'] = ['A'] := by decide
    norm_num [getPerformanceWindow, inWindow, perfAddTrade, updAssoc,
      perfInit, e1]

/-- C7 witness: the window clauses applied to one open and one closed
concrete trade one hour old, over a 48h window. -/
theorem perf_window_spec_witness :
    getPerformanceWindow
        [⟨196400000, ['B'], false, "m".toList, TradeAction.buyUp, 1/2, 50,
          TradeStatus.opened, none, none, none, none⟩] 200000000 48 none
      = [(['B'], ⟨1, 0, 0, 0, 0⟩)] ∧
    getPerformanceWindow
        [⟨196400000, ['B'], false, "m".toList, TradeAction.buyUp, 1/2, 50,
          TradeStatus.closed, some 1, some 10, none, none⟩] 200000000 48 none
      = [(['B'], ⟨1, 1, 10, 0, 10⟩)] := by
  have e1 : normalizeStrat ['B'] = ['B'] := by decide
  constructor
  · have h := (perf_window_spec [] 200000000 48 none).2.1
      ⟨196400000, ['B'], false, "m".toList, TradeAction.buyUp, 1/2, 50,
        TradeStatus.opened, none, none, none, none⟩
      rfl (by norm_num) (by norm_num [inWindow])
    rw [h, e1]
  · have h := (perf_window_spec [] 200000000 48 none).2.2.1
      ⟨196400000, ['B'], false, "m".toList, TradeAction.buyUp, 1/2, 50,
        TradeStatus.closed, some 1, some 10, none, none⟩
      10 rfl rfl (by norm_num [inWindow])
    rw [h, e1]
    norm_num

/-- C10: the take-profit sweep maps each ledger entry through a pointwise
step; that step leaves a trade completely untouched whenever it is already
closed, its market is absent from the price map, the side price is missing,
or the favorable move since entry is below the threshold — and it closes the
trade at the current price exactly when the trade is open with an available
price meeting the 30% threshold. -/
theorem tp_sweep_frame (mp : List (StrId × MarketPrices)) (now : ℚ)
    (trades : List Trade) (t : Trade) :
    checkTakeProfits mp now trades = trades.map (tpStep mp now) ∧
    (t.status = TradeStatus.closed → tpStep mp now t = t) ∧
    (alookup t.market mp = none → tpStep mp now t = t) ∧
    (∀ pr, alookup t.market mp = some pr → tpSidePrice pr t.action = none →
      tpStep mp now t = t) ∧
    (∀ pr p, alookup t.market mp = some pr →
      tpSidePrice pr t.action = some p →
      (p - t.entryPrice) / t.entryPrice < takeProfitPct →
      tpStep mp now t = t) ∧
    (∀ pr p, t.status = TradeStatus.opened →
      alookup t.market mp = some pr → tpSidePrice pr t.action = some p →
      0 < t.entryPrice →
      takeProfitPct ≤ (p - t.entryPrice) / t.entryPrice →
      tpStep mp now t = tpClose now p t) := by
  refine ⟨rfl, ?_, ?_, ?_, ?_, ?_⟩
  · intro hcl
    simp [tpStep, tpFires, hcl]
  · intro hmk
    simp [tpStep, tpFires, hmk]
  · intro pr hpr hside
    simp [tpStep, tpFires, hpr, hside]
  · intro pr p hpr hside hlt
    simp [tpStep, tpFires, hpr, hside, not_le.mpr hlt]
  · intro pr p hop hpr hside hent hge
    have h1 : takeProfitPct * t.entryPrice ≤ p - t.entryPrice :=
      (le_div_iff₀ hent).mp hge
    have hp : 0 < p := by
      have : (0 : ℚ) < takeProfitPct * t.entryPrice + t.entryPrice := by
        have : (0 : ℚ) < takeProfitPct := by norm_num [takeProfitPct]
        positivity
      linarith
    simp [tpStep, tpFires, hop, hpr, hside, ne_of_gt hp, hge]

/-- C10 witness: an open trade on a priced market meeting the threshold is
closed at the current price; an identical trade on a market outside the price
map is untouched. -/
theorem tp_sweep_frame_witness :
    tpStep [("m".toList, ⟨some (7/10), some (3/10)⟩)] 5
        ⟨0, "a".toList, false, "m".toList, TradeAction.buyUp, 1/2, 50,
          TradeStatus.opened, none, none, none, none⟩ =
      ⟨0, "a".toList, false, "m".toList, TradeAction.buyUp, 1/2, 50,
        TradeStatus.closed, some (7/10), some 20, some 5,
        some TPReason.takeProfit⟩ ∧
    tpStep [("m".toList, ⟨some (7/10), some (3/10)⟩)] 5
        ⟨0, "a".toList, false, "other".toList, TradeAction.buyUp, 1/2, 50,
          TradeStatus.opened, none, none, none, none⟩ =
      ⟨0, "a".toList, false, "other".toList, TradeAction.buyUp, 1/2, 50,
        TradeStatus.opened, none, none, none, none⟩ := by
  constructor
  · have h := (tp_sweep_frame [("m".toList, ⟨some (7/10), some (3/10)⟩)] 5 []
      ⟨0, "a".toList, false, "m".toList, TradeAction.buyUp, 1/2, 50,
        TradeStatus.opened, none, none, none, none⟩).2.2.2.2.2
      ⟨some (7/10), some (3/10)⟩ (7/10) rfl rfl rfl
      (by norm_num) (by norm_num [takeProfitPct])
    rw [h]
    norm_num [tpClose]
  · exact (tp_sweep_frame [("m".toList, ⟨some (7/10), some (3/10)⟩)] 5 []
      ⟨0, "a".toList, false, "other".toList, TradeAction.buyUp, 1/2, 50,
        TradeStatus.opened, none, none, none, none⟩).2.2.1 rfl


/-! ## Risk-manager theorems -/

/-- C5: `validate` runs its checks in the fixed order exposure, cooldown,
anti-stacking, sizing, post-size exposure re-check; the first failing check
alone determines the reported rule — in particular a state violating both the
exposure cap and the cooldown reports `MAX_EXPOSURE` — and a result never
carries two rules. -/
theorem riskgate_order (cfg : RiskConfig) (trades : List Trade) (now : ℚ)
    (s market : StrId) (a : TradeAction) (conf : ℚ) :
    (exposureViolated cfg trades market →
      validate cfg trades now s market a conf =
        RiskResult.rejected RiskRule.maxExposure) ∧
    (¬exposureViolated cfg trades market →
      cooldownActive cfg trades now s = true →
      validate cfg trades now s market a conf =
        RiskResult.rejected RiskRule.cooldown) ∧
    (¬exposureViolated cfg trades market →
      cooldownActive cfg trades now s = false →
      (cfg.noStacking && hasOpenPosition trades s market a) = true →
      validate cfg trades now s market a conf =
        RiskResult.rejected RiskRule.noStacking) ∧
    (¬exposureViolated cfg trades market →
      cooldownActive cfg trades now s = false →
      (cfg.noStacking && hasOpenPosition trades s market a) = false →
      ((∃ sz adj, validate cfg trades now s market a conf =
          RiskResult.accepted sz adj) ∨
        validate cfg trades now s market a conf =
          RiskResult.rejected RiskRule.maxExposure)) ∧
    (∀ r1 r2, validate cfg trades now s market a conf =
        RiskResult.rejected r1 →
      validate cfg trades now s market a conf = RiskResult.rejected r2 →
      r1 = r2) := by
  refine ⟨?_, ?_, ?_, ?_, ?_⟩
  · intro hexp
    rw [exposureViolated] at hexp
    simp only [validate]
    rw [if_pos hexp]
  · intro hexp hcd
    rw [exposureViolated] at hexp
    simp only [validate]
    rw [if_neg hexp, if_pos hcd]
  · intro hexp hcd hst
    rw [exposureViolated] at hexp
    simp only [validate]
    rw [if_neg hexp, if_neg (by simp [hcd]), if_pos hst]
  · intro hexp hcd hst
    rw [exposureViolated] at hexp
    simp only [validate]
    rw [if_neg hexp, if_neg (by simp [hcd]), if_neg (by simp [hst])]
    by_cases h4 : cfg.maxExposurePerMarket <
        (getMarketExposure trades market +
          calculatePositionSize cfg trades conf) / getPortfolioValue trades
    · rw [if_pos h4]
      by_cases h5 : cfg.maxExposurePerMarket * getPortfolioValue trades -
          getMarketExposure trades market < cfg.minTradeSize
      · rw [if_pos h5]
        exact Or.inr rfl
      · rw [if_neg h5]
        exact Or.inl ⟨_, _, rfl⟩
    · rw [if_neg h4]
      exact Or.inl ⟨_, _, rfl⟩
  · intro r1 r2 e1 e2
    rw [e1] at e2
    exact RiskResult.rejected.inj e2

/-- C5 witness: a state violating both the exposure cap (an open `$200`
position on a `$700` portfolio against a 20% cap) and the 10-minute cooldown
(last trade 1 minute ago) is rejected with `MAX_EXPOSURE`. -/
theorem riskgate_order_witness :
    exposureViolated ⟨1/5, 10, true, 1/20, 1, 50⟩
      [⟨940000, "s".toList, false, "m".toList, TradeAction.buyUp, 1/2, 200,
        TradeStatus.opened, none, none, none, none⟩] "m".toList ∧
    cooldownActive ⟨1/5, 10, true, 1/20, 1, 50⟩
      [⟨940000, "s".toList, false, "m".toList, TradeAction.buyUp, 1/2, 200,
        TradeStatus.opened, none, none, none, none⟩] 1000000 "s".toList
      = true ∧
    validate ⟨1/5, 10, true, 1/20, 1, 50⟩
      [⟨940000, "s".toList, false, "m".toList, TradeAction.buyUp, 1/2, 200,
        TradeStatus.opened, none, none, none, none⟩] 1000000
      "s".toList "m".toList TradeAction.buyUp (1/2)
      = RiskResult.rejected RiskRule.maxExposure := by
  have hexp : exposureViolated ⟨1/5, 10, true, 1/20, 1, 50⟩
      [⟨940000, "s".toList, false, "m".toList, TradeAction.buyUp, 1/2, 200,
        TradeStatus.opened, none, none, none, none⟩] "m".toList := by
    norm_num [exposureViolated, getMarketExposure, getPortfolioValue,
      openTrades]
  have hcd : cooldownActive ⟨1/5, 10, true, 1/20, 1, 50⟩
      [⟨940000, "s".toList, false, "m".toList, TradeAction.buyUp, 1/2, 200,
        TradeStatus.opened, none, none, none, none⟩] 1000000 "s".toList
      = true := by
    norm_num [cooldownActive, getLastTradeTime, List.mergeSort_singleton]
  exact ⟨hexp, hcd,
    (riskgate_order ⟨1/5, 10, true, 1/20, 1, 50⟩
      [⟨940000, "s".toList, false, "m".toList, TradeAction.buyUp, 1/2, 200,
        TradeStatus.opened, none, none, none, none⟩] 1000000
      "s".toList "m".toList TradeAction.buyUp (1/2)).1 hexp⟩

/-- C6 (amended): the portfolio value `validate` works from is not an
external input — it is computed by the risk manager itself as the hard-coded
`$500` base plus the open sizes of the injected paper ledger; `validate`
coincides with the externally-parameterised gate instantiated at that
internally computed value, and an empty open book always yields `$500`. -/
theorem portfolio_internal (cfg : RiskConfig) (trades : List Trade) (now : ℚ)
    (s market : StrId) (a : TradeAction) (conf : ℚ) :
    validate cfg trades now s market a conf =
      validateExt cfg (getPortfolioValue trades) trades now s market a conf ∧
    (openTrades trades = [] → getPortfolioValue trades = 500) := by
  constructor
  · rfl
  · intro h
    simp [getPortfolioValue, h]

/-- C6 witness: the equivalence at an empty ledger, where the internally
computed portfolio is exactly the hard-coded `$500`. -/
theorem portfolio_internal_witness :
    validate ⟨1/5, 10, true, 1/20, 1, 50⟩ [] 0 "s".toList "m".toList
        TradeAction.buyUp 1 =
      validateExt ⟨1/5, 10, true, 1/20, 1, 50⟩ (getPortfolioValue []) [] 0
        "s".toList "m".toList TradeAction.buyUp 1 ∧
    getPortfolioValue [] = 500 :=
  ⟨(portfolio_internal ⟨1/5, 10, true, 1/20, 1, 50⟩ [] 0 "s".toList
      "m".toList TradeAction.buyUp 1).1,
    (portfolio_internal ⟨1/5, 10, true, 1/20, 1, 50⟩ [] 0 "s".toList
      "m".toList TradeAction.buyUp 1).2 rfl⟩

/-- C6 counterexample: `validate` takes no portfolio input — on an empty
ledger it behaves as the parametric gate at exactly `$500` and disagrees with
the same gate fed any other externally supplied portfolio (here `$1000`,
where the 5% sizing would accept `$50` instead of `$25`). -/
theorem portfolio_internal_cex :
    validate ⟨1/5, 10, true, 1/20, 1, 50⟩ [] 0 "s".toList "m".toList
        TradeAction.buyUp 1 = RiskResult.accepted 25 false ∧
    validateExt ⟨1/5, 10, true, 1/20, 1, 50⟩ 1000 [] 0 "s".toList "m".toList
        TradeAction.buyUp 1 = RiskResult.accepted 50 false ∧
    validate ⟨1/5, 10, true, 1/20, 1, 50⟩ [] 0 "s".toList "m".toList
        TradeAction.buyUp 1 ≠
      validateExt ⟨1/5, 10, true, 1/20, 1, 50⟩ 1000 [] 0 "s".toList
        "m".toList TradeAction.buyUp 1 := by
  have h1 : validate ⟨1/5, 10, true, 1/20, 1, 50⟩ [] 0 "s".toList "m".toList
      TradeAction.buyUp 1 = RiskResult.accepted 25 false := by
    norm_num [validate, getPortfolioValue, getMarketExposure, openTrades,
      cooldownActive, getLastTradeTime, hasOpenPosition,
      calculatePositionSize, round2, List.mergeSort_nil]
  have h2 : validateExt ⟨1/5, 10, true, 1/20, 1, 50⟩ 1000 [] 0 "s".toList
      "m".toList TradeAction.buyUp 1 = RiskResult.accepted 50 false := by
    norm_num [validateExt, getMarketExposure, openTrades,
      cooldownActive, getLastTradeTime, hasOpenPosition, round2,
      List.mergeSort_nil]
  refine ⟨h1, h2, ?_⟩
  rw [h1, h2]
  intro h
  injection h with h3 h4
  norm_num at h3


/-! ## Allocator theorems -/

theorem rebalance_zero (m : List (StrId × ℚ)) : rebalance 0 m = (m, false) :=
  rfl

theorem rebalance_succ (n : ℕ) (m : List (StrId × ℚ)) :
    rebalance (n + 1) m =
      if (clampPass m).2 then rebalance n (renormStep (clampPass m).1)
      else (renormStep (clampPass m).1, true) := rfl

theorem renormStep_eq (m : List (StrId × ℚ)) :
    renormStep m =
      if 0 < wsum m ∧ 1/100 < |wsum m - 1| then
        m.map (fun p => (p.1, p.2 / wsum m))
      else m := rfl

theorem baseWeight_nonneg (s : StratStats) : 0 ≤ baseWeight s := by
  unfold baseWeight
  split_ifs with h1 h2
  · exact le_of_lt h1
  · norm_num
  · exact le_refl 0

theorem clampOne_nonneg {w : ℚ} (h : 0 ≤ w) : 0 ≤ clampOne w := by
  unfold clampOne
  split_ifs with h1 h2
  · norm_num [minAlloc]
  · norm_num [maxAlloc]
  · exact h

theorem clampOne_pos {w : ℚ} (h : 0 < w) : 0 < clampOne w := by
  unfold clampOne
  split_ifs with h1 h2
  · norm_num [minAlloc]
  · norm_num [maxAlloc]
  · exact h

theorem clampFires_false_clampOne {w : ℚ} (h : clampFires w = false) :
    clampOne w = w := by
  simp only [clampFires, Bool.or_eq_false_iff, decide_eq_false_iff_not] at h
  unfold clampOne
  rw [if_neg h.1, if_neg h.2]

theorem clampFires_false_bounds {w : ℚ} (hf : clampFires w = false)
    (h0 : 0 ≤ w) : w = 0 ∨ (minAlloc ≤ w ∧ w ≤ maxAlloc) := by
  simp only [clampFires, Bool.or_eq_false_iff, decide_eq_false_iff_not] at hf
  by_cases hw : w = 0
  · exact Or.inl hw
  · have hw0 : 0 < w := lt_of_le_of_ne h0 (Ne.symm hw)
    refine Or.inr ⟨?_, not_lt.mp hf.2⟩
    by_contra hlt
    exact hf.1 ⟨hw0, not_le.mp hlt⟩

theorem wsum_map_div (m : List (StrId × ℚ)) (t : ℚ) :
    wsum (m.map (fun p => (p.1, p.2 / t))) = wsum m / t := by
  induction m with
  | nil => simp [wsum]
  | cons p l ih => simp [wsum, add_div] at ih ⊢; rw [ih]

theorem exists_pos_of_wsum_pos {m : List (StrId × ℚ)}
    (h0 : ∀ p ∈ m, 0 ≤ p.2) (h : 0 < wsum m) : ∃ p ∈ m, 0 < p.2 := by
  by_contra hc
  push_neg at hc
  have hz : wsum m = 0 := by
    unfold wsum
    apply List.sum_eq_zero
    intro x hx
    rcases List.mem_map.mp hx with ⟨p, hp, rfl⟩
    exact le_antisymm (hc p hp) (h0 p hp)
  rw [hz] at h
  exact lt_irrefl 0 h

theorem clampPass_fst (m : List (StrId × ℚ)) :
    (clampPass m).1 = m.map (fun p => (p.1, clampOne p.2)) := rfl

theorem clampPass_nonneg {m : List (StrId × ℚ)} (h0 : ∀ p ∈ m, 0 ≤ p.2) :
    ∀ p ∈ (clampPass m).1, 0 ≤ p.2 := by
  intro p hp
  rw [clampPass_fst] at hp
  rcases List.mem_map.mp hp with ⟨q, hq, rfl⟩
  exact clampOne_nonneg (h0 q hq)

theorem wsum_clampPass_pos {m : List (StrId × ℚ)}
    (h0 : ∀ p ∈ m, 0 ≤ p.2) (hpos : ∃ p ∈ m, 0 < p.2) :
    0 < wsum (clampPass m).1 := by
  obtain ⟨p, hp, hppos⟩ := hpos
  have hrw : wsum (clampPass m).1 = (m.map (fun q => clampOne q.2)).sum := by
    rw [clampPass_fst]
    unfold wsum
    rw [List.map_map]
    rfl
  rw [hrw]
  have hnn : ∀ x ∈ m.map (fun q => clampOne q.2), 0 ≤ x := by
    intro x hx
    rcases List.mem_map.mp hx with ⟨q, hq, rfl⟩
    exact clampOne_nonneg (h0 q hq)
  have hmem : clampOne p.2 ∈ m.map (fun q => clampOne q.2) :=
    List.mem_map.mpr ⟨p, hp, rfl⟩
  exact lt_of_lt_of_le (clampOne_pos hppos) (List.single_le_sum hnn _ hmem)

theorem renorm_nonneg {m : List (StrId × ℚ)} (h0 : ∀ p ∈ m, 0 ≤ p.2) :
    ∀ p ∈ renormStep m, 0 ≤ p.2 := by
  intro p hp
  rw [renormStep_eq] at hp
  split_ifs at hp with hc
  · rcases List.mem_map.mp hp with ⟨q, hq, rfl⟩
    exact div_nonneg (h0 q hq) (le_of_lt hc.1)
  · exact h0 p hp

theorem renorm_abs {m : List (StrId × ℚ)} (hpos : 0 < wsum m) :
    |wsum (renormStep m) - 1| ≤ 1/100 := by
  rw [renormStep_eq]
  split_ifs with hc
  · rw [wsum_map_div, div_self (ne_of_gt hpos)]
    norm_num
  · push_neg at hc
    exact hc hpos

theorem renorm_eq_self {m : List (StrId × ℚ)}
    (h : |wsum m - 1| ≤ 1/100) : renormStep m = m := by
  rw [renormStep_eq, if_neg]
  rintro ⟨_, hgt⟩
  exact absurd h (not_le.mpr hgt)

theorem rebalance_clean :
    ∀ (n : ℕ) (m : List (StrId × ℚ)),
      (∀ p ∈ m, 0 ≤ p.2) → |wsum m - 1| ≤ 1/100 →
      (rebalance n m).2 = true →
      (∀ p ∈ (rebalance n m).1,
        p.2 = 0 ∨ (minAlloc ≤ p.2 ∧ p.2 ≤ maxAlloc)) ∧
      |wsum (rebalance n m).1 - 1| ≤ 1/100 := by
  intro n
  induction n with
  | zero =>
      intro m _ _ h2
      rw [rebalance_zero] at h2
      simp at h2
  | succ n ih =>
      intro m h0 habs h2
      have h99 : (99 / 100 : ℚ) ≤ wsum m := by
        have := abs_le.mp habs
        linarith [this.1]
      have hposm : 0 < wsum m := lt_of_lt_of_le (by norm_num) h99
      have hpose : ∃ p ∈ m, 0 < p.2 := exists_pos_of_wsum_pos h0 hposm
      have hcp : 0 < wsum (clampPass m).1 := wsum_clampPass_pos h0 hpose
      by_cases hf : (clampPass m).2 = true
      · rw [rebalance_succ, if_pos hf] at h2 ⊢
        exact ih (renormStep (clampPass m).1)
          (renorm_nonneg (clampPass_nonneg h0)) (renorm_abs hcp) h2
      · have hf2 : (clampPass m).2 = false := by
          cases hb : (clampPass m).2
          · rfl
          · exact absurd hb hf
        rw [rebalance_succ, if_neg (by simp [hf2])]
        have hfl : ∀ p ∈ m, clampFires p.2 = false := by
          have hany := hf2
          simp only [clampPass] at hany
          intro p hp
          have h3 := (List.any_eq_false.mp hany) p hp
          cases hb : clampFires p.2
          · rfl
          · exact absurd hb h3
        have hid : (clampPass m).1 = m := by
          rw [clampPass_fst]
          rw [List.map_congr_left
            (show ∀ p ∈ m, (p.1, clampOne p.2) = id p from fun p hp => by
              rw [clampFires_false_clampOne (hfl p hp)]
              exact Prod.mk.eta)]
          exact List.map_id m
        rw [hid, renorm_eq_self habs]
        exact ⟨fun p hp => clampFires_false_bounds (hfl p hp) (h0 p hp), habs⟩

/-- C2 (amended): when at least one eligible strategy carries a positive raw
weight and the floor/cap rebalance loop reaches its clamp-free break inside
the 10-iteration cap, every returned weight is `0` (possible for eligible
strategies with non-positive Sharpe and non-positive PnL) or lies in
`[minAlloc, maxAlloc] = [0.1, 0.5]`, and the weights sum to `1` within
`0.01`; an empty eligible set yields the `momentum_pure` fallback at weight
`1`.  Without those provisos the bounds can fail (see the counterexample). -/
theorem allocator_bounds_amended (stats : List (StrId × StratStats))
    (h0 : eligibleStats stats ≠ [])
    (h1 : 0 < totalBaseWeight stats)
    (h2 : (rebalance maxIterations (initWeights stats)).2 = true) :
    (∀ p ∈ calculateAllocations stats,
      p.2 = 0 ∨ (minAlloc ≤ p.2 ∧ p.2 ≤ maxAlloc)) ∧
    |wsum (calculateAllocations stats) - 1| ≤ 1/100 ∧
    (∀ stats2, eligibleStats stats2 = [] →
      calculateAllocations stats2 = fallbackAlloc) := by
  have hcalc : calculateAllocations stats =
      (rebalance maxIterations (initWeights stats)).1 := by
    rw [calculateAllocations, if_neg h0]
  have hnn : ∀ p ∈ initWeights stats, 0 ≤ p.2 := by
    rw [initWeights, if_pos h1]
    intro p hp
    rcases List.mem_map.mp hp with ⟨q, hq, rfl⟩
    have hq0 : 0 ≤ q.2 := by
      rw [rawWeights] at hq
      rcases List.mem_map.mp hq with ⟨r, _, rfl⟩
      exact baseWeight_nonneg r.2
    exact div_nonneg hq0 (le_of_lt h1)
  have hsum : wsum (initWeights stats) = 1 := by
    rw [initWeights, if_pos h1, wsum_map_div, ← totalBaseWeight,
      div_self (ne_of_gt h1)]
  have habs : |wsum (initWeights stats) - 1| ≤ 1/100 := by
    rw [hsum]; norm_num
  obtain ⟨hb, hs⟩ :=
    rebalance_clean maxIterations (initWeights stats) hnn habs h2
  refine ⟨?_, ?_, ?_⟩
  · rw [hcalc]; exact hb
  · rw [hcalc]; exact hs
  · intro stats2 he
    rw [calculateAllocations, if_pos he]

/-- C2 witness: two eligible strategies with equal positive Sharpe normalize
to `0.5` each; the first pass fires no clamp, so the loop breaks cleanly and
the bounds hold. -/
theorem allocator_bounds_amended_witness :
    (∀ p ∈ calculateAllocations
        [(['a'], ⟨3, 2, 5, 1⟩), (['b'], ⟨3, 2, 5, 1⟩)],
      p.2 = 0 ∨ (minAlloc ≤ p.2 ∧ p.2 ≤ maxAlloc)) ∧
    |wsum (calculateAllocations
        [(['a'], ⟨3, 2, 5, 1⟩), (['b'], ⟨3, 2, 5, 1⟩)]) - 1| ≤ 1/100 ∧
    (∀ stats2, eligibleStats stats2 = [] →
      calculateAllocations stats2 = fallbackAlloc) := by
  have helig : eligibleStats [(['a'], ⟨3, 2, 5, 1⟩), (['b'], ⟨3, 2, 5, 1⟩)] =
      [(['a'], ⟨3, 2, 5, 1⟩), (['b'], ⟨3, 2, 5, 1⟩)] := by
    norm_num [eligibleStats, eligibleEntry, winRate, minTrades, minWinRate,
      minPnlFloor]
    decide
  have htb : totalBaseWeight [(['a'], ⟨3, 2, 5, 1⟩), (['b'], ⟨3, 2, 5, 1⟩)] =
      2 := by
    rw [totalBaseWeight, rawWeights, helig]
    norm_num [wsum, baseWeight]
  refine allocator_bounds_amended _ ?_ ?_ ?_
  · rw [helig]
    simp
  · rw [htb]
    norm_num
  · have hinit : initWeights [(['a'], ⟨3, 2, 5, 1⟩), (['b'], ⟨3, 2, 5, 1⟩)] =
        [(['a'], 1/2), (['b'], 1/2)] := by
      rw [initWeights, if_pos (by rw [htb]; norm_num), rawWeights, helig, htb]
      norm_num [baseWeight]
    rw [hinit, show maxIterations = 9 + 1 from rfl, rebalance_succ,
      if_neg (by norm_num [clampPass, clampFires, minAlloc, maxAlloc])]

/-- C2 counterexample to the claim as stated: a single eligible strategy
(3 closed trades, 1 win, total PnL `-3`, Sharpe `-1`) passes every
eligibility floor yet gets raw weight `0`; nothing renormalizes a zero total,
so `calculateAllocations` returns weight `0`, the weights sum to `0` rather
than `1 ± ε`, and the eligible strategy's weight lies outside
`[minAlloc, maxAlloc]`. -/
theorem allocator_bounds_cex :
    eligibleStats [(['a'], ⟨3, 1, -3, -1⟩)] ≠ [] ∧
    calculateAllocations [(['a'], ⟨3, 1, -3, -1⟩)] = [(['a'], 0)] ∧
    ¬(|wsum (calculateAllocations [(['a'], ⟨3, 1, -3, -1⟩)]) - 1| ≤ 1/100) ∧
    ¬(minAlloc ≤ (0 : ℚ) ∧ (0 : ℚ) ≤ maxAlloc) := by
  have helig : eligibleStats [(['a'], ⟨3, 1, -3, -1⟩)] =
      [(['a'], ⟨3, 1, -3, -1⟩)] := by
    norm_num [eligibleStats, eligibleEntry, winRate, minTrades, minWinRate,
      minPnlFloor]
    decide
  have hraw : rawWeights [(['a'], ⟨3, 1, -3, -1⟩)] = [(['a'], 0)] := by
    rw [rawWeights, helig]
    norm_num [baseWeight]
  have hinit : initWeights [(['a'], ⟨3, 1, -3, -1⟩)] = [(['a'], 0)] := by
    rw [initWeights, if_neg, hraw]
    rw [totalBaseWeight, hraw]
    norm_num [wsum]
  have hcl : (clampPass [(['a'], (0 : ℚ))]).1 = [(['a'], (0 : ℚ))] := by
    rw [clampPass_fst]
    norm_num [clampOne, minAlloc, maxAlloc]
  have hflag : (clampPass [(['a'], (0 : ℚ))]).2 = false := by
    norm_num [clampPass, clampFires, minAlloc, maxAlloc]
  have hren : renormStep [(['a'], (0 : ℚ))] = [(['a'], (0 : ℚ))] := by
    rw [renormStep_eq, if_neg]
    rintro ⟨hc, _⟩
    norm_num [wsum] at hc
  have hcalc : calculateAllocations [(['a'], ⟨3, 1, -3, -1⟩)] =
      [(['a'], 0)] := by
    rw [calculateAllocations, if_neg (by rw [helig]; simp), hinit,
      show maxIterations = 9 + 1 from rfl, rebalance_succ,
      if_neg (by simp [hflag]), hcl, hren]
  refine ⟨by rw [helig]; simp, hcalc, ?_, by norm_num [minAlloc, maxAlloc]⟩
  rw [hcalc]
  norm_num [wsum]

end WT
